import Mathlib

/-!
Verification development for the StockPriceStats repository, hypothesis h001
(multi-period low support analysis).

The definitions below are a shallow embedding of the per-stock backtest in
`src/hypotheses/h001_multi_period_low_support/multi_period_low_analysis_incremental.py`
and of the original full-run variant in
`OLD/multi_period_low_analysis.py` (the two share their loop body verbatim;
they differ only in the `current_date <= min_analyze_date` skip).

Modelling conventions:
- Dates are `Int` (days); `timedelta(days=w)` is integer addition, and
  `(a - b).days` is integer subtraction.
- Prices (`Low`) are `ℚ`; `break_pct` arithmetic is exact rational arithmetic.
- A per-stock price frame (sorted ascending by `Date`, one row per date, as
  produced by `load_data` / `load_new_price_data` via `sort_values`) is a
  `List PricePoint` in that order.  Sortedness is an input invariant of those
  loaders; theorems that need it take it as a hypothesis.
- DataFrame boolean-mask filters are `List.filter` (order preserving),
  `.min()` of a nonempty column is `lowMin`, `iloc[a:b]` is `drop`/`take`,
  and `break_data.iloc[0]` is the head of the filtered list.
- A persisted per-window parquet file is `Option (List TradeTrial)`:
  `none` when the file is missing or unreadable, `some rows` otherwise.
- A worker future is `Except String (List TradeTrial)`: `.error` models a
  worker process whose exception is re-raised by `future.result()`.
-/

/-- One row of the per-stock price frame.  Only the `Date` and `Low` columns
are ever read by the analysis, so the other OHLC columns are omitted. -/
structure PricePoint where
  date : Int
  low : ℚ
deriving DecidableEq

/-- One appended result record (`results.append({...})`, incremental script
lines 200-214); field names follow the produced dictionary keys
(`period_name` is a display duplicate of `period_days` and is omitted). -/
structure TradeTrial where
  stock : String
  period_days : Nat
  support_date : Int
  support_level : ℚ
  wait_days : Nat
  test_date : Int
  expiry_days : Nat
  expiry_date : Int
  success : Option Bool
  min_during_option : Option ℚ
  days_to_break : Option Int
  break_pct : Option ℚ
deriving DecidableEq

/-- Configuration constant `EXPIRY_PERIODS = [7, 14, 21, 30, 45]`. -/
def EXPIRY_PERIODS : List Nat := [7, 14, 21, 30, 45]

/-- Minimum of the `Low` column of a nonempty frame (`df['Low'].min()`).
The `[]` case is never reached by the embedded code (every call site is
guarded by a nonemptiness test). -/
def lowMin : List PricePoint → ℚ
  | [] => 0
  | [p] => p.low
  | p :: q :: ps => min p.low (lowMin (q :: ps))

/-- The `iloc[window_start_idx : idx+1]` slice of the price frame: the
`period_days` rows ending at row `idx` (incremental script lines 147-148). -/
def trailingRows (stock_data : List PricePoint) (period_days idx : Nat) :
    List PricePoint :=
  (stock_data.drop (idx + 1 - period_days)).take period_days

/-- Row access `stock_data.loc[idx, 'Date']` (incremental script line 140);
the default row is never used at in-range indices. -/
def dateAt (stock_data : List PricePoint) (idx : Nat) : Int :=
  (stock_data.getD idx { date := 0, low := 0 }).date

/-- The rolling low for row `idx`: `window_data['Low'].min()` over the
`iloc` slice (incremental script lines 147-149). -/
def supportLevelAt (stock_data : List PricePoint) (period_days idx : Nat) :
    ℚ :=
  lowMin (trailingRows stock_data period_days idx)

/-- The half-open calendar slice `(a, b]` of the price frame:
`stock_data[(stock_data['Date'] > a) & (stock_data['Date'] <= b)]`, used for
both the wait window (incremental script lines 156-159) and the option
window (lines 172-175). -/
def datesIn (stock_data : List PricePoint) (a b : Int) : List PricePoint :=
  stock_data.filter (fun p => decide (a < p.date ∧ p.date ≤ b))

/-- Outcome classification of one option window (incremental script lines
172-198): given the full frame, the rolling low, the test date and the expiry
date, returns `(success, min_during_option, days_to_break, break_pct)`
exactly as the Python branches assign them. -/
def evalOutcome (stock_data : List PricePoint) (rolling_low : ℚ)
    (test_date expiry_date : Int) :
    Option Bool × Option ℚ × Option Int × Option ℚ :=
  let option_period_data := datesIn stock_data test_date expiry_date
  if option_period_data = [] then
    (none, none, none, none)
  else
    let m := lowMin option_period_data
    if rolling_low ≤ m then
      (some true, some m, none, none)
    else
      let break_data := option_period_data.filter
        (fun p => decide (p.low < rolling_low))
      match break_data with
      | fb :: _ =>
        (some false, some m, some (fb.date - test_date),
          some ((fb.low - rolling_low) / rolling_low * 100))
      | [] =>
        (some false, some m, none,
          some ((m - rolling_low) / rolling_low * 100))

/-- One record of the inner `for expiry_days in EXPIRY_PERIODS` loop
(incremental script lines 168-214). -/
def evalExpiry (stock : String) (stock_data : List PricePoint)
    (period_days : Nat) (current_date : Int) (rolling_low : ℚ)
    (wait_days : Nat) (test_date : Int) (expiry_days : Nat) : TradeTrial :=
  let expiry_date : Int := test_date + (expiry_days : Int)
  let r := evalOutcome stock_data rolling_low test_date expiry_date
  { stock := stock
    period_days := period_days
    support_date := current_date
    support_level := rolling_low
    wait_days := wait_days
    test_date := test_date
    expiry_days := expiry_days
    expiry_date := expiry_date
    success := r.1
    min_during_option := r.2.1
    days_to_break := r.2.2.1
    break_pct := r.2.2.2 }

/-- One iteration of the `for wait_days in wait_times` loop (incremental
script lines 152-214): the wait-window break check, then the expiry grid.
The Python `continue` when the wait window is nonempty and its minimum low is
below the rolling low produces no records for this wait value. -/
def evalWaitTime (stock : String) (stock_data : List PricePoint)
    (period_days : Nat) (current_date : Int) (rolling_low : ℚ)
    (wait_days : Nat) : List TradeTrial :=
  let test_date : Int := current_date + (wait_days : Int)
  let wait_period_data := datesIn stock_data current_date test_date
  if wait_period_data ≠ [] ∧ lowMin wait_period_data < rolling_low then
    []
  else
    EXPIRY_PERIODS.map (fun expiry_days =>
      evalExpiry stock stock_data period_days current_date rolling_low
        wait_days test_date expiry_days)

/-- Body of the `for idx in range(period_days - 1, len(stock_data))` loop for
one support date (incremental script lines 146-214): compute the rolling low
for row `idx`, then walk the wait grid. -/
def evalSupportDate (stock : String) (stock_data : List PricePoint)
    (period_days : Nat) (wait_times : List Nat) (idx : Nat) :
    List TradeTrial :=
  let current_date := dateAt stock_data idx
  let rolling_low := supportLevelAt stock_data period_days idx
  wait_times.flatMap (fun wait_days =>
    evalWaitTime stock stock_data period_days current_date rolling_low
      wait_days)

/-- Full-run per-stock analysis `analyze_stock_for_period`
(`OLD/multi_period_low_analysis.py` lines 85-177). -/
def analyze_stock_for_period (stock : String) (stock_data : List PricePoint)
    (period_days : Nat) (wait_times : List Nat) : List TradeTrial :=
  if stock_data.length < period_days then
    []
  else
    (List.range' (period_days - 1)
        (stock_data.length - (period_days - 1))).flatMap
      (fun idx => evalSupportDate stock stock_data period_days wait_times idx)

/-- Incremental per-stock analysis `analyze_stock_for_period_incremental`
(incremental script lines 118-216): identical to the full run except that a
support date with `current_date <= min_analyze_date` is skipped. -/
def analyze_stock_for_period_incremental (stock : String)
    (stock_data : List PricePoint) (period_days : Nat)
    (wait_times : List Nat) (min_analyze_date : Int) : List TradeTrial :=
  if stock_data.length < period_days then
    []
  else
    (List.range' (period_days - 1)
        (stock_data.length - (period_days - 1))).flatMap
      (fun idx =>
        let current_date := dateAt stock_data idx
        if current_date ≤ min_analyze_date then
          []
        else
          evalSupportDate stock stock_data period_days wait_times idx)

/-- Deduplication key used by `drop_duplicates(subset=['stock',
'support_date', 'wait_days', 'expiry_days'])` (incremental script line 299). -/
def keyOf (t : TradeTrial) : String × Int × Nat × Nat :=
  (t.stock, t.support_date, t.wait_days, t.expiry_days)

/-- `drop_duplicates(subset=..., keep='last')`: keep a row iff no later row
has the same key, preserving the order of the kept rows. -/
def dropDupKeepLast : List TradeTrial → List TradeTrial
  | [] => []
  | t :: ts =>
    if ts.any (fun u => decide (keyOf u = keyOf t)) then
      dropDupKeepLast ts
    else
      t :: dropDupKeepLast ts

/-- Boolean key-uniqueness test: no two rows of the list share a key. -/
def keyUniqueB : List TradeTrial → Bool
  | [] => true
  | t :: ts =>
    !(ts.any (fun u => decide (keyOf u = keyOf t))) && keyUniqueB ts

/-- Persistence step `append_results` (incremental script lines 262-310), as
a function from the current file state and the new rows to the next file
state.  With no new rows the function returns without touching the file; when
the file does not exist the new rows are written verbatim (no dedup); when it
exists the concatenation is deduplicated keeping the last row per key. -/
def append_results (existing : Option (List TradeTrial))
    (new_results : List TradeTrial) : Option (List TradeTrial) :=
  if new_results = [] then
    existing
  else
    match existing with
    | none => some new_results
    | some rows => some (dropDupKeepLast (rows ++ new_results))

/-- Maximum of the `support_date` column (`pd.to_datetime(df['support_date'])
.max()`, incremental script line 111); `none` for an empty frame. -/
def maxSupportDate : List TradeTrial → Option Int
  | [] => none
  | t :: ts => some (ts.foldl (fun m u => max m u.support_date) t.support_date)

/-- Watermark reader `get_last_analysis_date` (incremental script lines
93-115): `none` when the per-window file is missing or unreadable (the
`except` branch), otherwise the maximum persisted `support_date`. -/
def get_last_analysis_date (file : Option (List TradeTrial)) : Option Int :=
  match file with
  | none => none
  | some rows => maxSupportDate rows

/-- Cutoff computation of `main` (incremental script line 339):
`min([d for d in last_dates.values() if d is not None])`.  The `none` result
models the `ValueError` that Python's `min` raises on an empty sequence,
i.e. the run aborting when no window has a readable result file. -/
def min_last_date_of (last_dates : List (Option Int)) : Option Int :=
  match last_dates.filterMap id with
  | [] => none
  | d :: ds => some (ds.foldl min d)

/-- Result collection loop of `analyze_period_incremental` (incremental
script lines 244-254): `future.result()` re-raises a worker's exception in
the parent, so the first failed worker aborts the whole collection; otherwise
the per-stock lists are concatenated.  (Completion order is nondeterministic
in the source; whether the collection aborts is order independent.) -/
def collect_results :
    List (Except String (List TradeTrial)) → Except String (List TradeTrial)
  | [] => .ok []
  | w :: ws =>
    match w with
    | .error e => .error e
    | .ok r =>
      match collect_results ws with
      | .error e => .error e
      | .ok rs => .ok (r ++ rs)

/-! Concrete price frames and records used by counterexamples and witnesses.
All dates are strictly increasing within each frame, as the loaders
guarantee. -/

/-- Sparse frame: 30 rows spaced 40 calendar days apart (dates 0, 40, ...,
1160); only the first row's low (50) is below 100. -/
def c1data : List PricePoint :=
  { date := 0, low := 50 } ::
    (List.range 29).map (fun i => { date := 40 * ((i : Int) + 1), low := 100 })

/-- Historical tranche: 30 consecutive daily rows (dates 0..29), flat low
100. -/
def histC2 : List PricePoint :=
  (List.range 30).map (fun i => { date := (i : Int), low := 100 })

/-- The historical tranche plus one new daily row (date 30, low 100). -/
def combinedC2 : List PricePoint := histC2 ++ [{ date := 30, low := 100 }]

/-- Thirty flat daily rows followed by a dip to 50 on date 30. -/
def c5data : List PricePoint :=
  (List.range 30).map (fun i => { date := (i : Int), low := 100 })
    ++ [{ date := 30, low := 50 }]

/-- A single-row frame used by witnesses. -/
def dUnit : List PricePoint := [{ date := 0, low := 7 }]

/-- The first record generated from `dUnit` with window 1 and wait 0: the
option window (0, 7] is empty, so the record is Undetermined. -/
def tUnit : TradeTrial :=
  { stock := "s", period_days := 1, support_date := 0, support_level := 7,
    wait_days := 0, test_date := 0, expiry_days := 7, expiry_date := 7,
    success := none, min_during_option := none, days_to_break := none,
    break_pct := none }

/-- Two-row frame whose second row breaks the first row's level. -/
def dBreak : List PricePoint :=
  [{ date := 0, low := 100 }, { date := 1, low := 50 }]

/-- The record generated from `dBreak` with window 1, wait 0, expiry 7 at
support date 0: a Failure broken by the second row. -/
def tBreak : TradeTrial :=
  { stock := "s", period_days := 1, support_date := 0, support_level := 100,
    wait_days := 0, test_date := 0, expiry_days := 7, expiry_date := 7,
    success := some false, min_during_option := some 50,
    days_to_break := some 1, break_pct := some (-50) }

/-- The record generated from `dBreak` with window 1, wait 1, expiry 7 at
support date 1 (the only support date surviving the wait-break check when
the wait is 1 day). -/
def tAfterBreak : TradeTrial :=
  { stock := "s", period_days := 1, support_date := 1, support_level := 50,
    wait_days := 1, test_date := 2, expiry_days := 7, expiry_date := 9,
    success := none, min_during_option := none, days_to_break := none,
    break_pct := none }

/-- A persisted row with support date 29, standing for prior results of some
window. -/
def t29 : TradeTrial :=
  { stock := "Y", period_days := 30, support_date := 29, support_level := 100,
    wait_days := 0, test_date := 29, expiry_days := 7, expiry_date := 36,
    success := none, min_during_option := none, days_to_break := none,
    break_pct := none }

/-! Helper lemmas about `lowMin`. -/

/-- lowMin is a lower bound of the lows of the list. -/
theorem lowMin_le_of_mem {l : List PricePoint} {p : PricePoint}
    (hp : p ∈ l) : lowMin l ≤ p.low := by
  induction l with
  | nil => cases hp
  | cons a t ih =>
    cases t with
    | nil =>
      have hpa : p = a := List.mem_singleton.mp hp
      subst hpa
      exact le_of_eq rfl
    | cons b u =>
      rw [show lowMin (a :: b :: u) = min a.low (lowMin (b :: u)) from rfl]
      rcases List.mem_cons.mp hp with h | h
      · subst h
        exact min_le_left _ _
      · exact le_trans (min_le_right _ _) (ih h)

/-- lowMin of a nonempty list is attained by some row. -/
theorem exists_lowMin_eq {l : List PricePoint} (hl : l ≠ []) :
    ∃ p ∈ l, lowMin l = p.low := by
  induction l with
  | nil => exact absurd rfl hl
  | cons a t ih =>
    cases t with
    | nil => exact ⟨a, List.mem_singleton.mpr rfl, rfl⟩
    | cons b u =>
      rcases ih (by simp) with ⟨q, hq, hlow⟩
      rw [show lowMin (a :: b :: u) = min a.low (lowMin (b :: u)) from rfl]
      rcases le_total a.low (lowMin (b :: u)) with h | h
      · exact ⟨a, List.mem_cons_self a _, min_eq_left h⟩
      · exact ⟨q, List.mem_cons_of_mem a hq, by rw [min_eq_right h, hlow]⟩

/-! Field-projection lemmas for `evalExpiry`: the identifying fields of a
record do not depend on the outcome classification. -/

theorem evalExpiry_stock (s : String) (d : List PricePoint) (pd : Nat)
    (c : Int) (rl : ℚ) (w : Nat) (td : Int) (e : Nat) :
    (evalExpiry s d pd c rl w td e).stock = s := rfl

theorem evalExpiry_support_date (s : String) (d : List PricePoint) (pd : Nat)
    (c : Int) (rl : ℚ) (w : Nat) (td : Int) (e : Nat) :
    (evalExpiry s d pd c rl w td e).support_date = c := rfl

theorem evalExpiry_support_level (s : String) (d : List PricePoint) (pd : Nat)
    (c : Int) (rl : ℚ) (w : Nat) (td : Int) (e : Nat) :
    (evalExpiry s d pd c rl w td e).support_level = rl := rfl

theorem evalExpiry_wait_days (s : String) (d : List PricePoint) (pd : Nat)
    (c : Int) (rl : ℚ) (w : Nat) (td : Int) (e : Nat) :
    (evalExpiry s d pd c rl w td e).wait_days = w := rfl

theorem evalExpiry_test_date (s : String) (d : List PricePoint) (pd : Nat)
    (c : Int) (rl : ℚ) (w : Nat) (td : Int) (e : Nat) :
    (evalExpiry s d pd c rl w td e).test_date = td := rfl

theorem evalExpiry_expiry_days (s : String) (d : List PricePoint) (pd : Nat)
    (c : Int) (rl : ℚ) (w : Nat) (td : Int) (e : Nat) :
    (evalExpiry s d pd c rl w td e).expiry_days = e := rfl

theorem evalExpiry_expiry_date (s : String) (d : List PricePoint) (pd : Nat)
    (c : Int) (rl : ℚ) (w : Nat) (td : Int) (e : Nat) :
    (evalExpiry s d pd c rl w td e).expiry_date = td + (e : Int) := rfl

theorem evalExpiry_success (s : String) (d : List PricePoint) (pd : Nat)
    (c : Int) (rl : ℚ) (w : Nat) (td : Int) (e : Nat) :
    (evalExpiry s d pd c rl w td e).success
      = (evalOutcome d rl td (td + (e : Int))).1 := rfl

theorem evalExpiry_min_during (s : String) (d : List PricePoint) (pd : Nat)
    (c : Int) (rl : ℚ) (w : Nat) (td : Int) (e : Nat) :
    (evalExpiry s d pd c rl w td e).min_during_option
      = (evalOutcome d rl td (td + (e : Int))).2.1 := rfl

theorem evalExpiry_days_to_break (s : String) (d : List PricePoint) (pd : Nat)
    (c : Int) (rl : ℚ) (w : Nat) (td : Int) (e : Nat) :
    (evalExpiry s d pd c rl w td e).days_to_break
      = (evalOutcome d rl td (td + (e : Int))).2.2.1 := rfl

theorem evalExpiry_break_pct (s : String) (d : List PricePoint) (pd : Nat)
    (c : Int) (rl : ℚ) (w : Nat) (td : Int) (e : Nat) :
    (evalExpiry s d pd c rl w td e).break_pct
      = (evalOutcome d rl td (td + (e : Int))).2.2.2 := rfl

/-! Branch lemmas for `evalOutcome`. -/

/-- Empty option window: everything is null. -/
theorem evalOutcome_empty {d : List PricePoint} {rl : ℚ} {td ed : Int}
    (h : datesIn d td ed = []) :
    evalOutcome d rl td ed = (none, none, none, none) := by
  unfold evalOutcome
  simp only [h, if_pos]

/-- Held option window: the minimum low stayed at or above the rolling low. -/
theorem evalOutcome_held {d : List PricePoint} {rl : ℚ} {td ed : Int}
    (h : datesIn d td ed ≠ []) (hm : rl ≤ lowMin (datesIn d td ed)) :
    evalOutcome d rl td ed
      = (some true, some (lowMin (datesIn d td ed)), none, none) := by
  unfold evalOutcome
  rw [if_neg h, if_pos hm]

/-- Broken option window with a pointwise first breach. -/
theorem evalOutcome_first_breach {d : List PricePoint} {rl : ℚ} {td ed : Int}
    {fb : PricePoint} {l : List PricePoint}
    (h : datesIn d td ed ≠ []) (hm : lowMin (datesIn d td ed) < rl)
    (hb : (datesIn d td ed).filter (fun p => decide (p.low < rl)) = fb :: l) :
    evalOutcome d rl td ed
      = (some false, some (lowMin (datesIn d td ed)),
          some (fb.date - td), some ((fb.low - rl) / rl * 100)) := by
  unfold evalOutcome
  rw [if_neg h, if_neg (not_le.mpr hm), hb]

/-- Broken option window with no pointwise breach: the guarded fallback. -/
theorem evalOutcome_fallback {d : List PricePoint} {rl : ℚ} {td ed : Int}
    (h : datesIn d td ed ≠ []) (hm : lowMin (datesIn d td ed) < rl)
    (hb : (datesIn d td ed).filter (fun p => decide (p.low < rl)) = []) :
    evalOutcome d rl td ed
      = (some false, some (lowMin (datesIn d td ed)), none,
          some ((lowMin (datesIn d td ed) - rl) / rl * 100)) := by
  unfold evalOutcome
  rw [if_neg h, if_neg (not_le.mpr hm), hb]

/-! Membership structure of the generated record lists. -/

/-- Every record of one support date's block carries that date. -/
theorem support_date_of_mem_evalSupportDate {s : String}
    {d : List PricePoint} {pd : Nat} {wt : List Nat} {idx : Nat}
    {t : TradeTrial} (ht : t ∈ evalSupportDate s d pd wt idx) :
    t.support_date = dateAt d idx := by
  simp only [evalSupportDate] at ht
  obtain ⟨w, hw, ht⟩ := List.mem_flatMap.mp ht
  simp only [evalWaitTime] at ht
  split at ht
  · cases ht
  · obtain ⟨e, he, rfl⟩ := List.mem_map.mp ht
    rfl

/-- Structure of membership in a full-run result list: every record arises
from an in-range row index, a wait value and an expiry value, with the wait
window not breaking the rolling low, and is exactly the record built by
`evalExpiry` at those parameters. -/
theorem mem_analyze_full {s : String} {d : List PricePoint} {pd : Nat}
    {wt : List Nat} {t : TradeTrial}
    (ht : t ∈ analyze_stock_for_period s d pd wt) :
    ∃ idx w e, pd ≤ d.length ∧ pd - 1 ≤ idx ∧ idx < d.length ∧
      w ∈ wt ∧ e ∈ EXPIRY_PERIODS ∧
      ¬(datesIn d (dateAt d idx) (dateAt d idx + (w : Int)) ≠ [] ∧
          lowMin (datesIn d (dateAt d idx) (dateAt d idx + (w : Int)))
            < supportLevelAt d pd idx) ∧
      t = evalExpiry s d pd (dateAt d idx) (supportLevelAt d pd idx) w
            (dateAt d idx + (w : Int)) e := by
  unfold analyze_stock_for_period at ht
  split at ht
  · cases ht
  · rename_i hlen
    obtain ⟨idx, hidx, ht⟩ := List.mem_flatMap.mp ht
    obtain ⟨i, hi, rfl⟩ := List.mem_range'.mp hidx
    simp only [evalSupportDate] at ht
    obtain ⟨w, hw, ht⟩ := List.mem_flatMap.mp ht
    simp only [evalWaitTime] at ht
    split at ht
    · cases ht
    · rename_i hguard
      obtain ⟨e, he, rfl⟩ := List.mem_map.mp ht
      exact ⟨pd - 1 + 1 * i, w, e, by omega, by omega, by omega, hw, he,
        hguard, rfl⟩

/-- Filtering distributes over the per-index blocks. -/
theorem flatMap_filter_congr {L : List Nat} {p : TradeTrial → Bool}
    {f g : Nat → List TradeTrial}
    (h : ∀ idx ∈ L, (f idx).filter p = g idx) :
    (L.flatMap f).filter p = L.flatMap g := by
  induction L with
  | nil => rfl
  | cons a l ih =>
    simp only [List.flatMap_cons, List.filter_append]
    rw [h a (List.mem_cons_self a l),
      ih (fun idx hidx => h idx (List.mem_cons_of_mem a hidx))]

/-- The incremental per-stock analysis is the full-run analysis restricted
to support dates strictly after the cutoff. -/
theorem analyze_incr_restricts (s : String) (d : List PricePoint) (pd : Nat)
    (wt : List Nat) (m : Int) :
    analyze_stock_for_period_incremental s d pd wt m
      = (analyze_stock_for_period s d pd wt).filter
          (fun t => decide (m < t.support_date)) := by
  unfold analyze_stock_for_period_incremental analyze_stock_for_period
  split
  · rfl
  · symm
    apply flatMap_filter_congr
    intro idx hidx
    dsimp only
    by_cases hc : dateAt d idx ≤ m
    · rw [if_pos hc]
      apply List.filter_eq_nil_iff.mpr
      intro t htmem
      have hsd := support_date_of_mem_evalSupportDate htmem
      simp [hsd, not_lt.mpr hc]
    · rw [if_neg hc]
      apply List.filter_eq_self.mpr
      intro t htmem
      have hsd := support_date_of_mem_evalSupportDate htmem
      simp [hsd, not_le.mp hc]

/-- With no price row after the cutoff, the incremental analysis generates
zero records. -/
theorem analyze_incr_nil_of_le {s : String} {d : List PricePoint} {pd : Nat}
    {wt : List Nat} {m : Int} (h : ∀ p ∈ d, p.date ≤ m) :
    analyze_stock_for_period_incremental s d pd wt m = [] := by
  rw [analyze_incr_restricts]
  apply List.filter_eq_nil_iff.mpr
  intro t ht
  obtain ⟨idx, w, e, hlen, hpdidx, hidxlen, hw, he, hguard, rfl⟩ :=
    mem_analyze_full ht
  have hdmem : d.getD idx { date := 0, low := 0 } ∈ d := by
    rw [List.getD_eq_getElem _ _ hidxlen]
    exact List.getElem_mem hidxlen
  have hle := h _ hdmem
  rw [evalExpiry_support_date]
  simp only [decide_eq_true_eq, not_lt]
  exact hle

/-! Lemmas about the merge-and-dedup step. -/

/-- Unfolding equation for `dropDupKeepLast` on a cons cell. -/
theorem dropDupKeepLast_cons (t : TradeTrial) (ts : List TradeTrial) :
    dropDupKeepLast (t :: ts)
      = if ts.any (fun u => decide (keyOf u = keyOf t)) then
          dropDupKeepLast ts
        else
          t :: dropDupKeepLast ts := rfl

/-- Dedup keeps only rows of the original list. -/
theorem mem_of_mem_dropDupKeepLast {l : List TradeTrial} {u : TradeTrial}
    (hu : u ∈ dropDupKeepLast l) : u ∈ l := by
  induction l with
  | nil => cases hu
  | cons t ts ih =>
    unfold dropDupKeepLast at hu
    split at hu
    · exact List.mem_cons_of_mem t (ih hu)
    · rcases List.mem_cons.mp hu with h | h
      · exact h ▸ List.mem_cons_self t ts
      · exact List.mem_cons_of_mem t (ih h)

/-- Dedup output never contains two rows with the same key. -/
theorem keyUniqueB_dropDupKeepLast (l : List TradeTrial) :
    keyUniqueB (dropDupKeepLast l) = true := by
  induction l with
  | nil => rfl
  | cons t ts ih =>
    unfold dropDupKeepLast
    split
    · exact ih
    · rename_i hany
      unfold keyUniqueB
      rw [Bool.and_eq_true]
      refine ⟨?_, ih⟩
      rw [Bool.not_eq_true']
      apply List.any_eq_false.mpr
      intro u hu hk
      exact hany (List.any_eq_true.mpr ⟨u, mem_of_mem_dropDupKeepLast hu, hk⟩)

/-- Dedup is the identity on key-unique lists. -/
theorem dropDupKeepLast_eq_self {l : List TradeTrial}
    (h : keyUniqueB l = true) : dropDupKeepLast l = l := by
  induction l with
  | nil => rfl
  | cons t ts ih =>
    unfold keyUniqueB at h
    rw [Bool.and_eq_true] at h
    have hfalse : ts.any (fun u => decide (keyOf u = keyOf t)) = false := by
      simpa using h.1
    rw [dropDupKeepLast_cons, if_neg (by simp [hfalse]), ih h.2]

/-- A prefix every key of which reappears later is dropped whole. -/
theorem dropDupKeepLast_append_covered {xs ys : List TradeTrial}
    (h : ∀ x ∈ xs, ∃ y ∈ ys, keyOf y = keyOf x) :
    dropDupKeepLast (xs ++ ys) = dropDupKeepLast ys := by
  induction xs with
  | nil => rfl
  | cons x xs ih =>
    obtain ⟨y, hy, hky⟩ := h x (List.mem_cons_self x xs)
    rw [List.cons_append]
    have hcond : (xs ++ ys).any (fun u => decide (keyOf u = keyOf x)) = true :=
      List.any_eq_true.mpr ⟨y, List.mem_append_right xs hy, by simp [hky]⟩
    rw [dropDupKeepLast_cons, if_pos hcond]
    exact ih (fun z hz => h z (List.mem_cons_of_mem x hz))

/-- Merging a key-unique list with an identical copy of itself gives the
list back. -/
theorem dropDupKeepLast_self_append {l : List TradeTrial}
    (h : keyUniqueB l = true) : dropDupKeepLast (l ++ l) = l := by
  rw [dropDupKeepLast_append_covered (fun x hx => ⟨x, hx, rfl⟩),
    dropDupKeepLast_eq_self h]

/-- Exhaustive case description of `evalOutcome`. -/
theorem evalOutcome_cases (d : List PricePoint) (rl : ℚ) (td ed : Int) :
    (datesIn d td ed = [] ∧ evalOutcome d rl td ed = (none, none, none, none))
    ∨ (datesIn d td ed ≠ [] ∧ rl ≤ lowMin (datesIn d td ed) ∧
        evalOutcome d rl td ed
          = (some true, some (lowMin (datesIn d td ed)), none, none))
    ∨ (datesIn d td ed ≠ [] ∧ lowMin (datesIn d td ed) < rl ∧
        ((∃ fb bl,
            (datesIn d td ed).filter (fun p => decide (p.low < rl)) = fb :: bl
              ∧ evalOutcome d rl td ed
                  = (some false, some (lowMin (datesIn d td ed)),
                      some (fb.date - td), some ((fb.low - rl) / rl * 100)))
          ∨ ((datesIn d td ed).filter (fun p => decide (p.low < rl)) = [] ∧
              evalOutcome d rl td ed
                = (some false, some (lowMin (datesIn d td ed)), none,
                    some ((lowMin (datesIn d td ed) - rl) / rl * 100))))) := by
  by_cases hO : datesIn d td ed = []
  · exact Or.inl ⟨hO, evalOutcome_empty hO⟩
  · by_cases hm : rl ≤ lowMin (datesIn d td ed)
    · exact Or.inr (Or.inl ⟨hO, hm, evalOutcome_held hO hm⟩)
    · have hlt := not_le.mp hm
      rcases hb : (datesIn d td ed).filter (fun p => decide (p.low < rl)) with
        _ | ⟨fb, bl⟩
      · exact Or.inr (Or.inr ⟨hO, hlt,
          Or.inr ⟨hb, evalOutcome_fallback hO hlt hb⟩⟩)
      · exact Or.inr (Or.inr ⟨hO, hlt,
          Or.inl ⟨fb, bl, hb, evalOutcome_first_breach hO hlt hb⟩⟩)

/-- The trailing window of an in-range row has exactly `period_days` rows. -/
theorem trailingRows_length {d : List PricePoint} {pd idx : Nat}
    (h1 : pd - 1 ≤ idx) (h2 : idx < d.length) :
    (trailingRows d pd idx).length = pd := by
  simp only [trailingRows, List.length_take, List.length_drop]
  omega

/-- The trailing window of an in-range row is nonempty when the window
length is positive. -/
theorem trailingRows_ne_nil {d : List PricePoint} {pd idx : Nat}
    (hpd : 1 ≤ pd) (h1 : pd - 1 ≤ idx) (h2 : idx < d.length) :
    trailingRows d pd idx ≠ [] := by
  intro hnil
  have hl := trailingRows_length h1 h2
  rw [hnil] at hl
  simp at hl
  omega

/-! Claim theorems. -/

set_option maxRecDepth 1000000

/-- C1 counterexample: on `c1data` (30 rows spaced 40 days apart) with
window length 30, the single generated support date is 1160 and every
emitted record carries support_level 50 — the minimum over the last 30
ROWS — whereas the minimum low over the inclusive calendar interval
[1160 - 30, 1160] is 100.  Moreover date 40 has 40 calendar days of prior
data, yet no record is generated for it, so qualification is also by row
count, not calendar days. -/
theorem C1_counterexample :
    (analyze_stock_for_period "X" c1data 30 [0]).map
        (fun t => (t.support_date, t.support_level))
      = List.replicate 5 (1160, (50 : ℚ))
    ∧ lowMin (c1data.filter
        (fun p => decide ((1160 : Int) - 30 ≤ p.date ∧ p.date ≤ 1160))) = 100
    ∧ (50 : ℚ) ≠ 100
    ∧ (analyze_stock_for_period "X" c1data 30 [0]).filter
        (fun t => decide (t.support_date = 40)) = [] := by
  refine ⟨by decide, by decide, by decide, by decide⟩

/-- C1 (amended): the support level of every emitted record is the minimum
low over the trailing window of the last `period_days` OBSERVATIONS (rows)
ending at the support date's row — not over a calendar-day interval — the
level being attained by a row of that window and a lower bound for it; and,
conversely, a date QUALIFIES exactly when at least `period_days`
observations up to and including it exist: whenever wait 0 is configured
(it always is in the source's `WAIT_TIMES`), every in-range row yields a
record at its date and row-window level, since a 0-day wait window
`(date, date]` is empty and never triggers the wait-break skip. -/
theorem C1_rolling_min_rows {s : String} {d : List PricePoint} {pd : Nat}
    {wt : List Nat} (hpd : 1 ≤ pd) :
    (∀ t ∈ analyze_stock_for_period s d pd wt,
      ∃ idx, pd - 1 ≤ idx ∧ idx < d.length ∧
        t.support_date = dateAt d idx ∧
        (∃ p ∈ trailingRows d pd idx, t.support_level = p.low) ∧
        (∀ p ∈ trailingRows d pd idx, t.support_level ≤ p.low)) ∧
    (0 ∈ wt → ∀ idx, pd - 1 ≤ idx → idx < d.length →
      ∃ t ∈ analyze_stock_for_period s d pd wt,
        t.support_date = dateAt d idx ∧
        t.support_level = supportLevelAt d pd idx) := by
  constructor
  · intro t ht
    obtain ⟨idx, w, e, hlen, hpdidx, hidxlen, hw, he, hguard, rfl⟩ :=
      mem_analyze_full ht
    refine ⟨idx, hpdidx, hidxlen, evalExpiry_support_date .., ?_, ?_⟩
    · obtain ⟨p, hp, hmin⟩ :=
        exists_lowMin_eq (trailingRows_ne_nil hpd hpdidx hidxlen)
      exact ⟨p, hp, by rw [evalExpiry_support_level]; exact hmin⟩
    · intro p hp
      rw [evalExpiry_support_level]
      exact lowMin_le_of_mem hp
  · intro h0 idx hpdidx hidxlen
    refine ⟨evalExpiry s d pd (dateAt d idx) (supportLevelAt d pd idx) 0
        (dateAt d idx + ((0 : Nat) : Int)) 7, ?_,
      evalExpiry_support_date .., evalExpiry_support_level ..⟩
    unfold analyze_stock_for_period
    rw [if_neg (by omega)]
    apply List.mem_flatMap.mpr
    refine ⟨idx, List.mem_range'.mpr ⟨idx - (pd - 1), by omega, by omega⟩, ?_⟩
    simp only [evalSupportDate]
    apply List.mem_flatMap.mpr
    refine ⟨0, h0, ?_⟩
    have hempty :
        datesIn d (dateAt d idx) (dateAt d idx + ((0 : Nat) : Int)) = [] := by
      apply List.filter_eq_nil_iff.mpr
      intro p hp
      simp only [decide_eq_true_eq]
      intro hcon
      omega
    simp only [evalWaitTime]
    rw [if_neg (by
      intro hcon
      exact hcon.1 hempty)]
    exact List.mem_map.mpr ⟨7, by decide, rfl⟩

/-- C1 witness: both directions of the amended statement instantiated on the
one-row frame `dUnit` with window 1: its record `tUnit` carries the
row-window minimum, and row 0 (the only row with at least 1 observation)
does yield a record at its date and level. -/
theorem C1_rolling_min_rows_witness :
    (∃ idx, 1 - 1 ≤ idx ∧ idx < dUnit.length ∧
      tUnit.support_date = dateAt dUnit idx ∧
      (∃ p ∈ trailingRows dUnit 1 idx, tUnit.support_level = p.low) ∧
      (∀ p ∈ trailingRows dUnit 1 idx, tUnit.support_level ≤ p.low)) ∧
    (∃ t ∈ analyze_stock_for_period "s" dUnit 1 [0],
      t.support_date = dateAt dUnit 0 ∧
      t.support_level = supportLevelAt dUnit 1 0) :=
  ⟨(@C1_rolling_min_rows "s" dUnit 1 [0] (by decide)).1 tUnit (by decide),
    (@C1_rolling_min_rows "s" dUnit 1 [0] (by decide)).2 (by decide) 0
      (by decide) (by decide)⟩

/-- C2 counterexample: split the flat series `combinedC2` into the 30-row
historical tranche `histC2` and one new row.  The full run on the combined
series classifies the trial (support date 29, wait 0, expiry 7) as Success,
but the incremental pipeline — full run on the historical tranche
(watermark 29), incremental step on the combined series, merge — keeps the
stale Undetermined record for that key, so the final persisted ResultSet
differs from the from-scratch run. -/
theorem C2_counterexample :
    get_last_analysis_date (some (analyze_stock_for_period "X" histC2 30 [0]))
      = some 29
    ∧ ((analyze_stock_for_period "X" combinedC2 30 [0]).filter
          (fun t => decide (t.support_date = 29 ∧ t.expiry_days = 7))).map
        (fun t => t.success) = [some true]
    ∧ (((append_results
            (some (analyze_stock_for_period "X" histC2 30 [0]))
            (analyze_stock_for_period_incremental "X" combinedC2 30 [0]
              29)).getD []).filter
          (fun t => decide (t.support_date = 29 ∧ t.expiry_days = 7))).map
        (fun t => t.success) = [none] := by
  refine ⟨by decide, by decide, by decide⟩

/-- C2 (amended): the incremental step regenerates exactly the records whose
support date lies strictly after the watermark — it equals the full run
restricted to post-watermark support dates.  Records at or before the
watermark keep their historical values, which (as the counterexample shows)
can differ from a from-scratch run on the combined series because their
forward-looking windows are not re-evaluated against the new tranche. -/
theorem C2_incremental_restriction (s : String) (d : List PricePoint)
    (pd : Nat) (wt : List Nat) (m : Int) :
    analyze_stock_for_period_incremental s d pd wt m
      = (analyze_stock_for_period s d pd wt).filter
          (fun t => decide (m < t.support_date)) :=
  analyze_incr_restricts s d pd wt m

/-- C3: for every emitted record, if the option window (observations
strictly after the test date, up to and including the expiry date) is empty
then the outcome is Undetermined (`none`); if it is non-empty the outcome is
Success exactly when its minimum low is at least the support level and
Failure exactly when the minimum low is strictly below it. -/
theorem C3_outcome_correct {s : String} {d : List PricePoint} {pd : Nat}
    {wt : List Nat} {m : Int} {t : TradeTrial}
    (ht : t ∈ analyze_stock_for_period_incremental s d pd wt m) :
    (datesIn d t.test_date t.expiry_date = [] → t.success = none) ∧
    (datesIn d t.test_date t.expiry_date ≠ [] →
      ((t.success = some true ↔
          t.support_level ≤ lowMin (datesIn d t.test_date t.expiry_date)) ∧
        (t.success = some false ↔
          lowMin (datesIn d t.test_date t.expiry_date)
            < t.support_level))) := by
  rw [analyze_incr_restricts] at ht
  obtain ⟨idx, w, e, hlen, hpdidx, hidxlen, hw, he, hguard, rfl⟩ :=
    mem_analyze_full (List.mem_filter.mp ht).1
  rw [evalExpiry_test_date, evalExpiry_expiry_date, evalExpiry_success,
    evalExpiry_support_level]
  rcases evalOutcome_cases d (supportLevelAt d pd idx) (dateAt d idx + (w : Int))
      (dateAt d idx + (w : Int) + (e : Int)) with
    ⟨hO, heq⟩ | ⟨hO, hm, heq⟩ | ⟨hO, hm, hrest⟩
  · rw [heq]
    exact ⟨fun _ => rfl, fun hne => absurd hO hne⟩
  · rw [heq]
    refine ⟨fun h => absurd h hO, fun _ => ⟨?_, ?_⟩⟩
    · simp [hm]
    · simp [not_lt.mpr hm]
  · rcases hrest with ⟨fb, bl, hb, heq⟩ | ⟨hb, heq⟩ <;>
      rw [heq] <;>
      exact ⟨fun h => absurd h hO, fun _ =>
        ⟨by simp [not_le.mpr hm], by simp [hm]⟩⟩

/-- C3 witness: the Undetermined case of the outcome-correctness statement
instantiated on `dUnit` and its record `tUnit` (whose option window (0, 7]
is empty). -/
theorem C3_outcome_correct_witness : tUnit.success = none :=
  (@C3_outcome_correct "s" dUnit 1 [0] (-1) tUnit (by decide)).1 (by decide)

/-- C4: for a frame with strictly increasing dates, if some observation in
the wait window (strictly after the event date, up to and including the test
date) has a low strictly below the event's support level, then the output
contains no record at all for that (event date, wait value) — the whole
expiry sub-grid is skipped. -/
theorem C4_wait_break_skip {s : String} {d : List PricePoint} {pd : Nat}
    {wt : List Nat} {m : Int}
    (hsort : d.Pairwise (fun p q => p.date < q.date))
    {idx : Nat} (hidx : idx < d.length) {w : Nat}
    (hbreak : ∃ p ∈ datesIn d (dateAt d idx) (dateAt d idx + (w : Int)),
        p.low < supportLevelAt d pd idx) :
    ∀ t ∈ analyze_stock_for_period_incremental s d pd wt m,
      ¬(t.support_date = dateAt d idx ∧ t.wait_days = w) := by
  intro t ht hcon
  obtain ⟨hsd, hwd⟩ := hcon
  rw [analyze_incr_restricts] at ht
  obtain ⟨idx2, w2, e, hlen, hpdidx, hidxlen, hw2, he, hguard, heq⟩ :=
    mem_analyze_full (List.mem_filter.mp ht).1
  subst heq
  rw [evalExpiry_support_date] at hsd
  rw [evalExpiry_wait_days] at hwd
  subst hwd
  have hii : idx2 = idx := by
    by_contra hne
    rcases Nat.lt_or_ge idx2 idx with hlt | hge
    · have hdd := (List.pairwise_iff_getElem.mp hsort) idx2 idx hidxlen hidx hlt
      simp only [dateAt, List.getD_eq_getElem _ _ hidxlen,
        List.getD_eq_getElem _ _ hidx] at hsd
      exact absurd hsd (ne_of_lt hdd)
    · have hlt : idx < idx2 := lt_of_le_of_ne hge (Ne.symm hne)
      have hdd := (List.pairwise_iff_getElem.mp hsort) idx idx2 hidx hidxlen hlt
      simp only [dateAt, List.getD_eq_getElem _ _ hidxlen,
        List.getD_eq_getElem _ _ hidx] at hsd
      exact absurd hsd.symm (ne_of_lt hdd)
  subst hii
  obtain ⟨p, hp, hplow⟩ := hbreak
  apply hguard
  constructor
  · intro hnil
    rw [hnil] at hp
    cases hp
  · exact lt_of_le_of_lt (lowMin_le_of_mem hp) hplow

/-- C4 witness: on `dBreak` with window 1, the second row (low 50) breaks
the first row's level 100 during a 1-day wait, so the record generated at
support date 1 cannot carry (support date 0, wait 1); the skip invariant
applied to the concrete member `tAfterBreak`. -/
theorem C4_wait_break_skip_witness :
    ¬(tAfterBreak.support_date = dateAt dBreak 0 ∧
        tAfterBreak.wait_days = 1) :=
  @C4_wait_break_skip "s" dBreak 1 [1] (-1) (by decide) 0 (by decide) 1
    ⟨{ date := 1, low := 50 }, by decide, by decide⟩ tAfterBreak (by decide)

/-- C5 counterexample: on `c5data` with window 30 and wait 0, the trial at
support date 29 with expiry 7 fails: the first (and only) breaching
observation has low 50 against support level 100, yet the recorded
`break_pct` is -50 — the percentage `((50 - 100) / 100) * 100` — while the
claim's fraction `(50 - 100) / 100` is -(1/2), a different value. -/
theorem C5_counterexample :
    ((analyze_stock_for_period "X" c5data 30 [0]).filter
        (fun t => decide (t.support_date = 29 ∧ t.expiry_days = 7))).map
      (fun t => (t.success, t.support_level, t.days_to_break, t.break_pct))
      = [(some false, (100 : ℚ), some 1, some (-50 : ℚ))]
    ∧ lowMin (datesIn c5data 29 36) = 50
    ∧ ((50 : ℚ) - 100) / 100 = -(1 / 2)
    ∧ (-50 : ℚ) ≠ -(1 / 2) := by
  refine ⟨by with_unfolding_all decide, by decide, by norm_num, by norm_num⟩

/-- C5 (amended): for every emitted Failure record, if the option window
contains a pointwise breach, the record stores the first breaching
observation's date offset from the test date and
`break_pct = (first_breaching_low - support_level) / support_level * 100`
(a percentage, not a fraction); with no pointwise breach it falls back to
`break_pct = (min_low - support_level) / support_level * 100` with a null
break date. -/
theorem C5_break_fields {s : String} {d : List PricePoint} {pd : Nat}
    {wt : List Nat} {m : Int} {t : TradeTrial}
    (ht : t ∈ analyze_stock_for_period_incremental s d pd wt m)
    (hfail : t.success = some false) :
    (∀ fb bl,
        (datesIn d t.test_date t.expiry_date).filter
            (fun p => decide (p.low < t.support_level)) = fb :: bl →
        t.days_to_break = some (fb.date - t.test_date) ∧
        t.break_pct
          = some ((fb.low - t.support_level) / t.support_level * 100)) ∧
    ((datesIn d t.test_date t.expiry_date).filter
          (fun p => decide (p.low < t.support_level)) = [] →
      t.days_to_break = none ∧
      t.break_pct
        = some ((lowMin (datesIn d t.test_date t.expiry_date)
            - t.support_level) / t.support_level * 100)) := by
  rw [analyze_incr_restricts] at ht
  obtain ⟨idx, w, e, hlen, hpdidx, hidxlen, hw, he, hguard, rfl⟩ :=
    mem_analyze_full (List.mem_filter.mp ht).1
  rw [evalExpiry_success] at hfail
  rw [evalExpiry_test_date, evalExpiry_expiry_date, evalExpiry_support_level,
    evalExpiry_days_to_break, evalExpiry_break_pct]
  rcases evalOutcome_cases d (supportLevelAt d pd idx)
      (dateAt d idx + (w : Int)) (dateAt d idx + (w : Int) + (e : Int)) with
    ⟨hO, heq⟩ | ⟨hO, hm, heq⟩ | ⟨hO, hm, ⟨fb0, bl0, hb, heq⟩ | ⟨hb, heq⟩⟩
  · rw [heq] at hfail
    cases hfail
  · rw [heq] at hfail
    cases hfail
  · rw [heq]
    constructor
    · intro fb bl hfb
      rw [hb] at hfb
      obtain ⟨rfl, rfl⟩ := List.cons.injEq .. ▸ hfb
      exact ⟨rfl, rfl⟩
    · intro hnil
      rw [hb] at hnil
      cases hnil
  · rw [heq]
    constructor
    · intro fb bl hfb
      rw [hb] at hfb
      cases hfb
    · intro hnil
      exact ⟨rfl, rfl⟩

/-- C5 witness: the amended statement instantiated on `dBreak` and its
Failure record `tBreak`, whose breach list is the single row (1, 50). -/
theorem C5_break_fields_witness :
    tBreak.days_to_break
        = some (({ date := 1, low := 50 } : PricePoint).date
            - tBreak.test_date)
    ∧ tBreak.break_pct
        = some ((({ date := 1, low := 50 } : PricePoint).low
              - tBreak.support_level) / tBreak.support_level * 100) :=
  (@C5_break_fields "s" dBreak 1 [0] (-1) tBreak
      (by with_unfolding_all decide) rfl).1
    { date := 1, low := 50 } [] (by decide)

/-- C10: every emitted record ties its outcome to its auxiliary fields: the
recorded minimum low during the option window is null exactly when the
outcome is Undetermined; a Success or Undetermined outcome has null
`break_pct` and null `days_to_break`; and a non-null `break_pct` occurs only
on Failure. -/
theorem C10_field_consistency {s : String} {d : List PricePoint} {pd : Nat}
    {wt : List Nat} {m : Int} {t : TradeTrial}
    (ht : t ∈ analyze_stock_for_period_incremental s d pd wt m) :
    (t.min_during_option = none ↔ t.success = none) ∧
    (t.success = some true ∨ t.success = none →
      t.break_pct = none ∧ t.days_to_break = none) ∧
    (t.break_pct ≠ none → t.success = some false) := by
  rw [analyze_incr_restricts] at ht
  obtain ⟨idx, w, e, hlen, hpdidx, hidxlen, hw, he, hguard, rfl⟩ :=
    mem_analyze_full (List.mem_filter.mp ht).1
  rw [evalExpiry_success, evalExpiry_min_during, evalExpiry_days_to_break,
    evalExpiry_break_pct]
  rcases evalOutcome_cases d (supportLevelAt d pd idx)
      (dateAt d idx + (w : Int)) (dateAt d idx + (w : Int) + (e : Int)) with
    ⟨hO, heq⟩ | ⟨hO, hm, heq⟩ | ⟨hO, hm, ⟨fb0, bl0, hb, heq⟩ | ⟨hb, heq⟩⟩ <;>
    rw [heq] <;> simp

/-- C10 witness: the consistency statement applied to the concrete Failure
record `tBreak` (non-null `break_pct` forces a Failure outcome). -/
theorem C10_field_consistency_witness : tBreak.success = some false :=
  (@C10_field_consistency "s" dBreak 1 [0] (-1) tBreak
      (by with_unfolding_all decide)).2.2 (by decide)

/-- C6: with no new price rows after the watermark, the incremental step
generates zero records and the subsequent merge leaves the persisted rows
unchanged; and merging a key-unique result set with an identical copy of
itself (concatenate, then dedup keeping the last row per key) returns that
same result set. -/
theorem C6_idempotent_rerun {s : String} {d : List PricePoint} {pd : Nat}
    {wt : List Nat} {m : Int} {R : List TradeTrial}
    (hnew : ∀ p ∈ d, p.date ≤ m) (hkey : keyUniqueB R = true) :
    analyze_stock_for_period_incremental s d pd wt m = [] ∧
    append_results (some R)
      (analyze_stock_for_period_incremental s d pd wt m) = some R ∧
    append_results (some R) R = some R := by
  have hnil := @analyze_incr_nil_of_le s d pd wt m hnew
  refine ⟨hnil, ?_, ?_⟩
  · rw [hnil]
    rfl
  · by_cases hR : R = []
    · subst hR
      rfl
    · unfold append_results
      rw [if_neg hR]
      show some (dropDupKeepLast (R ++ R)) = some R
      rw [dropDupKeepLast_self_append hkey]

/-- C6 witness: a second run over the one-row frame `dUnit` with watermark 0
and the key-unique persisted set `[t29]`. -/
theorem C6_idempotent_rerun_witness :
    analyze_stock_for_period_incremental "s" dUnit 1 [0] 0 = [] ∧
    append_results (some [t29])
      (analyze_stock_for_period_incremental "s" dUnit 1 [0] 0) = some [t29] ∧
    append_results (some [t29]) [t29] = some [t29] :=
  @C6_idempotent_rerun "s" dUnit 1 [0] 0 [t29] (by decide) (by decide)

/-- C7 counterexample: on the write that first creates the file
(`existing = none`) the rows are persisted verbatim, with no dedup applied:
feeding two rows with the same key yields a persisted set with a duplicate
key, different from what the dedup would have produced. -/
theorem C7_counterexample :
    append_results none [t29, t29] = some [t29, t29]
    ∧ keyUniqueB [t29, t29] = false
    ∧ dropDupKeepLast [t29, t29] = [t29]
    ∧ ([t29, t29] : List TradeTrial) ≠ [t29] := by
  refine ⟨by decide, by decide, by decide, by decide⟩

/-- C7 (amended): the dedup is applied on every MERGE write (the write made
when a persisted file already exists and there are new rows), and after such
a write no two persisted rows share the key
(stock, support_date, wait_days, expiry_days); the creation write persists
the new rows verbatim, so its key-uniqueness relies on the generator. -/
theorem C7_merge_write_unique (existing rows_new : List TradeTrial)
    (hne : rows_new ≠ []) :
    append_results (some existing) rows_new
      = some (dropDupKeepLast (existing ++ rows_new)) ∧
    keyUniqueB (dropDupKeepLast (existing ++ rows_new)) = true := by
  refine ⟨?_, keyUniqueB_dropDupKeepLast _⟩
  unfold append_results
  rw [if_neg hne]

/-- C7 witness: a merge write of `[t29]` onto `[t29]`. -/
theorem C7_merge_write_unique_witness :
    append_results (some [t29]) [t29]
      = some (dropDupKeepLast ([t29] ++ [t29]))
    ∧ keyUniqueB (dropDupKeepLast ([t29] ++ [t29])) = true :=
  C7_merge_write_unique [t29] [t29] (by decide)

/-- C8 counterexample: when every per-window result file is missing, the
cutoff computation `min([...])` has no value (Python raises `ValueError` —
the run aborts, it does not degrade to a full run); and when another window
supplies watermark 29, a window whose own file is missing is reprocessed
with that cutoff, generating zero records on `histC2` where a full run
generates five — not a full reprocessing from the start of history. -/
theorem C8_counterexample :
    min_last_date_of [get_last_analysis_date none, get_last_analysis_date
        none, get_last_analysis_date none, get_last_analysis_date none,
        get_last_analysis_date none] = none
    ∧ min_last_date_of [get_last_analysis_date (some [t29]),
        get_last_analysis_date none] = some 29
    ∧ analyze_stock_for_period_incremental "X" histC2 30 [0] 29 = []
    ∧ (analyze_stock_for_period "X" histC2 30 [0]).length = 5 := by
  refine ⟨by decide, by decide, by decide, by decide⟩

/-- C8 (amended): a missing or unreadable per-window file yields a "no prior
data" watermark (`none`) without failing the read step; but when no window
has a readable file the run's cutoff computation has no value (the run
aborts), and the incremental analysis only ever generates records with
support dates strictly after the cutoff it is given — a window is never
fully reprocessed unless the cutoff predates its whole history. -/
theorem C8_missing_watermark (ds : List (Option Int))
    (hall : ∀ x ∈ ds, x = none) :
    min_last_date_of ds = none ∧
    get_last_analysis_date none = none ∧
    ∀ (s : String) (d : List PricePoint) (pd : Nat) (wt : List Nat)
      (m : Int) (t : TradeTrial),
      t ∈ analyze_stock_for_period_incremental s d pd wt m →
      m < t.support_date := by
  refine ⟨?_, rfl, ?_⟩
  · unfold min_last_date_of
    have hnil : ds.filterMap id = [] := by
      apply List.filterMap_eq_nil_iff.mpr
      intro x hx
      rw [hall x hx]
      rfl
    rw [hnil]
  · intro s d pd wt m t ht
    rw [analyze_incr_restricts] at ht
    simpa using (List.mem_filter.mp ht).2

/-- C8 witness: two missing windows give a valueless cutoff; the record
`tAfterBreak` generated with cutoff 0 indeed has a later support date. -/
theorem C8_missing_watermark_witness :
    min_last_date_of [none, none] = none ∧
    get_last_analysis_date none = none ∧
    (0 : Int) < tAfterBreak.support_date := by
  obtain ⟨h1, h2, h3⟩ := C8_missing_watermark [none, none] (by decide)
  exact ⟨h1, h2, h3 "s" dBreak 1 [1] 0 tAfterBreak (by decide)⟩

/-- Helper for C9: the collection loop re-raises the first failed worker's
exception once the workers before it have succeeded. -/
theorem collect_results_error
    (pre post : List (Except String (List TradeTrial))) (e : String)
    (hok : ∀ w ∈ pre, ∃ r, w = Except.ok r) :
    collect_results (pre ++ Except.error e :: post) = Except.error e := by
  induction pre with
  | nil => rfl
  | cons w ws ih =>
    obtain ⟨r, rfl⟩ := hok w (List.mem_cons_self w ws)
    rw [List.cons_append]
    show (match collect_results (ws ++ Except.error e :: post) with
      | Except.error e2 => (Except.error e2 : Except String (List TradeTrial))
      | Except.ok rs => Except.ok (r ++ rs)) = Except.error e
    rw [ih (fun x hx => hok x (List.mem_cons_of_mem _ hx))]

/-- C9 (amended): a failure while processing a single symbol propagates —
`future.result()` re-raises the worker's exception, so the collection
aborts with that error and no symbol's records are persisted for the
period; the handled per-symbol case is a frame with fewer rows than the
window length, which contributes zero records without raising. -/
theorem C9_worker_failure_aborts
    (pre post : List (Except String (List TradeTrial))) (e : String)
    (hok : ∀ w ∈ pre, ∃ r, w = Except.ok r) :
    collect_results (pre ++ Except.error e :: post) = Except.error e ∧
    ∀ (s : String) (d : List PricePoint) (pd : Nat) (wt : List Nat)
      (m : Int), d.length < pd →
      analyze_stock_for_period_incremental s d pd wt m = [] := by
  refine ⟨collect_results_error pre post e hok, ?_⟩
  intro s d pd wt m hlen
  unfold analyze_stock_for_period_incremental
  rw [if_pos hlen]

/-- C9 counterexample: one failed worker aborts the collection — the
records of the successfully completed workers are not produced — whereas
with every worker succeeding the collection returns all records. -/
theorem C9_counterexample :
    collect_results [Except.ok [tUnit], Except.error "malformed",
        Except.ok [t29]] = Except.error "malformed"
    ∧ (Except.error "malformed" : Except String (List TradeTrial))
        ≠ Except.ok ([tUnit] ++ [t29])
    ∧ collect_results [Except.ok [tUnit], Except.ok [t29]]
        = Except.ok ([tUnit] ++ [t29]) :=
  ⟨rfl, fun h => Except.noConfusion h, rfl⟩

/-- C9 witness: the abort statement at a concrete failing worker list, and
the handled short-frame case at a concrete symbol. -/
theorem C9_worker_failure_aborts_witness :
    collect_results [Except.ok [t29], Except.error "boom"]
      = Except.error "boom"
    ∧ analyze_stock_for_period_incremental "s" [] 1 [0] 0 = [] := by
  obtain ⟨h1, h2⟩ := C9_worker_failure_aborts [Except.ok [t29]] [] "boom"
    (fun w hw => ⟨[t29], List.mem_singleton.mp hw⟩)
  exact ⟨h1, h2 "s" [] 1 [0] 0 (by decide)⟩
